import Mathlib

/-
Verification of the core numeric pipeline of the 4D chord-space
visualizer: timeline extraction from MIDI-like event streams
(src/midi.rs), the fixed integer motion transform
(src/transformation.rs), and the animation state machine
(src/engine.rs).  Rust `i32` values are modelled as `ℤ` (the pitch
data is bounded to 0..127 so 32-bit overflow never occurs), Rust
`f32` values as `ℚ` (exact arithmetic model of the float
computations), and panics / non-termination as `Option`.
-/

namespace ChordViz

/-- Lean image of the Rust array type `[i32; 4]`, used both for frames
(one pitch per voice) and for motion vectors. -/
structure V4 where
  c0 : ℤ
  c1 : ℤ
  c2 : ℤ
  c3 : ℤ
  deriving DecidableEq

/-- The all-zero vector, used as the (never relevant) default for
in-bounds list indexing. -/
def z4 : V4 := ⟨0, 0, 0, 0⟩

/-- Lean image of `[[i32; 4]; 4]`: a 4×4 integer matrix given by its
four rows. -/
structure M4 where
  r0 : V4
  r1 : V4
  r2 : V4
  r3 : V4

/-- `matmul4x4` from src/transformation.rs: output component `i` is the
dot product of `d` with row `i` of `t`. -/
def matmul4x4 (d : V4) (t : M4) : V4 :=
  ⟨d.c0 * t.r0.c0 + d.c1 * t.r0.c1 + d.c2 * t.r0.c2 + d.c3 * t.r0.c3,
   d.c0 * t.r1.c0 + d.c1 * t.r1.c1 + d.c2 * t.r1.c2 + d.c3 * t.r1.c3,
   d.c0 * t.r2.c0 + d.c1 * t.r2.c1 + d.c2 * t.r2.c2 + d.c3 * t.r2.c3,
   d.c0 * t.r3.c0 + d.c1 * t.r3.c1 + d.c2 * t.r3.c2 + d.c3 * t.r3.c3⟩

/-- `matdif4x1` from src/transformation.rs: elementwise `b - a`. -/
def matdif4x1 (a b : V4) : V4 :=
  ⟨b.c0 - a.c0, b.c1 - a.c1, b.c2 - a.c2, b.c3 - a.c3⟩

/-- The fixed transform matrix `t` from `transform` in
src/transformation.rs. -/
def tMatrix : M4 :=
  ⟨⟨1, 1, 1, 1⟩, ⟨1, -1, -1, 1⟩, ⟨1, -1, 1, -1⟩, ⟨1, 1, -1, -1⟩⟩

/-- `transform` from src/transformation.rs: apply the fixed matrix to
the delta of an adjacent frame pair. -/
def transform (start stop : V4) : V4 :=
  matmul4x4 (matdif4x1 start stop) tMatrix

/-- `convert` from src/transformation.rs.  The Rust loop is
`for i in 0..(voice_leadings.len() - 1)`; `len()` is a `usize`, so for
an empty input the subtraction `0 - 1` underflows and the call panics
(overflow panic in debug builds; wrap followed by an out-of-bounds
index panic in release builds).  The panic is modelled as `none`. -/
def convert (voice_leadings : List V4) : Option (List V4) :=
  if voice_leadings.length = 0 then
    none
  else
    some ((List.range (voice_leadings.length - 1)).map fun i =>
      transform (voice_leadings.getD i z4) (voice_leadings.getD (i + 1) z4))

end ChordViz

namespace ChordViz

/-- A 3-component point, the Lean image of `Point3<f32>`; the float
components are modelled exactly as rationals. -/
structure P3 where
  x : ℚ
  y : ℚ
  z : ℚ
  deriving DecidableEq

/-- `POSITION_SCALE` from src/engine.rs. -/
def POSITION_SCALE : ℚ := 1000

/-- `COLOR_SCALE` from src/engine.rs (`0.03`). -/
def COLOR_SCALE : ℚ := 3 / 100

/-- `MOTION_SPEED` from src/engine.rs (`0.125`, one sixteenth note at
120 BPM). -/
def MOTION_SPEED : ℚ := 1 / 8

/-- Rust `f32::trunc`: round toward zero. -/
def ratTrunc (q : ℚ) : ℤ := if 0 ≤ q then ⌊q⌋ else ⌈q⌉

/-- Rust `f32::fract` (`x - x.trunc()`); for a modulus of one this
also models the Rust float remainder `x % 1.0`
(`x - (x / 1.0).trunc() * 1.0`). -/
def rfract (q : ℚ) : ℚ := q - ratTrunc q

/-- The `AnimationState` struct of src/engine.rs. -/
structure AnimationState where
  motions : List V4
  current_position : P3
  target_position : P3
  current_index : ℕ
  transition_progress : ℚ
  current_hue : ℚ
  target_hue : ℚ
  position_history : List P3
  timer : ℚ
  deriving DecidableEq

/-- `AnimationState::new` from src/engine.rs. -/
def AnimationState.new (motions : List V4) : AnimationState :=
  let first_motion := if motions.isEmpty then z4 else motions.getD 0 z4
  let target_position : P3 :=
    ⟨(first_motion.c1 : ℚ) * POSITION_SCALE / 100,
     (first_motion.c2 : ℚ) * POSITION_SCALE / 100,
     (first_motion.c3 : ℚ) * POSITION_SCALE / 100⟩
  let initial_hue := rfract |(first_motion.c0 : ℚ) * COLOR_SCALE|
  { motions := motions
    current_position := ⟨0, 0, 0⟩
    target_position := target_position
    current_index := 0
    transition_progress := 0
    current_hue := initial_hue
    target_hue := initial_hue
    position_history := []
    timer := 0 }

/-- `AnimationState::update` from src/engine.rs.  The returned `Bool`
is the Rust return value (`false` = stop).  The only possible panic is
the indexing `self.motions[self.current_index]` after the increment;
it is modelled by `none` through the `[idx]?` access — the guard
`current_index >= motions.len()` returns first, exactly as in the
source. -/
def AnimationState.update (s : AnimationState) (dt : ℚ) :
    Option (AnimationState × Bool) :=
  let newTimer := s.timer + dt
  let prog := s.transition_progress + dt / MOTION_SPEED
  if 1 ≤ prog then
    let pos := s.target_position
    let hist0 := s.position_history ++ [pos]
    let hist := if 100 < hist0.length then hist0.drop 1 else hist0
    let idx := s.current_index + 1
    if s.motions.length ≤ idx then
      some ({ s with
              timer := newTimer
              transition_progress := 0
              current_position := pos
              position_history := hist
              current_index := idx }, false)
    else
      match s.motions[idx]? with
      | none => none
      | some m =>
        let total_motion := (m.c0 : ℚ) * COLOR_SCALE
        some ({ motions := s.motions
                timer := newTimer
                transition_progress := 0
                current_position := pos
                position_history := hist
                current_index := idx
                current_hue := s.target_hue
                target_hue := rfract |total_motion|
                target_position :=
                  ⟨pos.x + (m.c1 : ℚ) * POSITION_SCALE / 100,
                   pos.y + (m.c2 : ℚ) * POSITION_SCALE / 100,
                   pos.z + (m.c3 : ℚ) * POSITION_SCALE / 100⟩ }, true)
  else
    some ({ s with
            timer := newTimer
            transition_progress := prog }, true)

/-- The hue computation of `AnimationState::interpolated_color` in
src/engine.rs (the subsequent HSV-to-RGB conversion lives in the
`rgba` module and does not touch the hue). -/
def AnimationState.interpolatedHue (s : AnimationState) : ℚ :=
  let hue_diff := s.target_hue - s.current_hue
  let hue_diff :=
    if 1 / 2 < |hue_diff| then
      (if 0 < hue_diff then hue_diff - 1 else hue_diff + 1)
    else hue_diff
  rfract (s.current_hue + hue_diff * s.transition_progress)

end ChordViz

namespace ChordViz

/-- The part of a MIDI track event that `parse` in src/midi.rs looks
at: a note-on message carries a key (0..127) and a velocity; every
other event kind (note-off, other channel messages, meta events) only
contributes its delta time and is collapsed into `other`. -/
inductive MidiEventKind where
  | noteOn (key : ℕ) (vel : ℕ)
  | other
  deriving DecidableEq

/-- One track event: a delta time in ticks and the event kind. -/
structure TrackEvent where
  delta : ℕ
  kind : MidiEventKind
  deriving DecidableEq

/-- The `notes_by_tick` map of src/midi.rs (`BTreeMap<u32, i32>`),
modelled as an association list sorted by strictly increasing tick;
`insertNote` is `BTreeMap::insert` (later events overwrite earlier
ones at the same tick). -/
def insertNote : List (ℕ × ℤ) → ℕ → ℤ → List (ℕ × ℤ)
  | [], k, v => [(k, v)]
  | (k', v') :: rest, k, v =>
    if k < k' then (k, v) :: (k', v') :: rest
    else if k = k' then (k, v) :: rest
    else (k', v') :: insertNote rest k v

/-- The first event loop of `parse` in src/midi.rs: accumulate the
absolute tick by summing deltas and record `absoluteTick → pitch` for
every note-on with strictly positive velocity. -/
def buildNotes : List TrackEvent → ℕ → List (ℕ × ℤ) → List (ℕ × ℤ)
  | [], _, m => m
  | e :: rest, absTick, m =>
    let absTick' := absTick + e.delta
    match e.kind with
    | .noteOn key vel =>
      if 0 < vel then buildNotes rest absTick' (insertNote m absTick' (key : ℤ))
      else buildNotes rest absTick' m
    | .other => buildNotes rest absTick' m

/-- `notes_by_tick.keys().last().unwrap_or(&0)`: the largest recorded
tick, `0` for an empty map. -/
def lastTick (m : List (ℕ × ℤ)) : ℕ :=
  (m.map Prod.fst).foldl Nat.max 0

/-- The sampling loop of `parse` in src/midi.rs
(`while tick <= max_tick`), written with explicit fuel: each iteration
holds the most recently recorded pitch and pushes one sample, then
steps `tick` by `tp16`.  `none` models non-termination within the
given fuel — when `tp16 = 0` the Rust loop never terminates and no
fuel is enough. -/
def sampleFuel (tp16 maxTick : ℕ) (notes : List (ℕ × ℤ)) :
    ℕ → ℕ → ℤ → List ℤ → Option (List ℤ)
  | 0, tick, _, acc =>
    if tick ≤ maxTick then none else some acc
  | fuel + 1, tick, lastNote, acc =>
    if tick ≤ maxTick then
      let lastNote' := (notes.lookup tick).getD lastNote
      sampleFuel tp16 maxTick notes fuel (tick + tp16) lastNote' (acc ++ [lastNote'])
    else some acc

/-- One voice timeline as built by `parse` for one track, with the
sampling loop given `fuel` iterations. -/
def voiceTimelineFuel (tp16 : ℕ) (track : List TrackEvent) (fuel : ℕ) :
    Option (List ℤ) :=
  let notes := buildNotes track 0 []
  sampleFuel tp16 (lastTick notes) notes fuel 0 0 []

/-- One voice timeline as built by `parse` for one track.  When
`tp16 ≥ 1` the loop runs at most `lastTick + 1` times, so that much
fuel is exact: the result is `some` precisely when the Rust loop
terminates (`lastTick_add_one_fuel_enough` below), and `none` models
the infinite loop reached when `tp16 = 0`. -/
def voiceTimeline (tp16 : ℕ) (track : List TrackEvent) : Option (List ℤ) :=
  voiceTimelineFuel tp16 track (lastTick (buildNotes track 0 []) + 1)

/-- The four `voice_timelines` slots of `parse`: one timeline per
track for the first four tracks (`iter().take(4)`), remaining slots
keep their initial empty value. -/
def voiceTimelines (tp16 : ℕ) (tracks : List (List TrackEvent)) :
    Option (List (List ℤ)) := do
  let built ← (tracks.take 4).mapM (voiceTimeline tp16)
  pure (built ++ List.replicate (4 - built.length) [])

/-- The inner backfill loop of `parse`: replace each leading zero by
`v`, stopping at the first sample that is already non-zero. -/
def backfillAux (v : ℤ) : List ℤ → List ℤ
  | [] => []
  | x :: xs => if x = 0 then v :: backfillAux v xs else x :: xs

/-- The silence-backfill step of `parse` in src/midi.rs: if the
timeline has a non-zero sample, replace every leading zero with the
first non-zero value; a timeline with no non-zero sample is kept
as is. -/
def backfill (tl : List ℤ) : List ℤ :=
  match tl.find? (fun x => x != 0) with
  | none => tl
  | some v => backfillAux v tl

/-- The tail of `parse` in src/midi.rs after the Smf decode and the
timing check: build the four voice timelines (`none` when the
sampling loop diverges), backfill each, and combine them into frames
of length `len = max timeline length`, padding missing tail entries
with 0. -/
def parseCore (tpq : ℕ) (tracks : List (List TrackEvent)) :
    Option (List V4) := do
  let tp16 := tpq / 4
  let tls ← voiceTimelines tp16 tracks
  let len := (tls.map List.length).foldl Nat.max 0
  let tlsB := tls.map backfill
  pure ((List.range len).map fun i =>
    ⟨(tlsB.getD 0 []).getD i 0, (tlsB.getD 1 []).getD i 0,
     (tlsB.getD 2 []).getD i 0, (tlsB.getD 3 []).getD i 0⟩)

/-- The timing declaration of the input file header, as matched by
`parse`: `Metrical` carries ticks-per-quarter-note, any other timing
base (SMPTE timecode) is `timecode`. -/
inductive Timing where
  | metrical (tpq : ℕ)
  | timecode
  deriving DecidableEq

/-- A decoded input file: its header timing and its tracks. -/
structure Smf where
  timing : Timing
  tracks : List (List TrackEvent)

/-- The error taxonomy of the extraction stage. -/
inductive MidiError where
  | parseError
  | timingUnsupported
  deriving DecidableEq

/-- `parse` from src/midi.rs.  Modelled from the spec: reading the
file and decoding the byte stream happen in the external `midly`
crate and the standard library, so they are represented by their
combined result `decoded` (`.error` for a malformed or unreadable
stream, `.ok` for a decoded file); everything after that point
follows the source.  The inner `Option` is `none` when the sampling
loop diverges. -/
def parse (decoded : Except Unit Smf) :
    Except MidiError (Option (List V4)) :=
  match decoded with
  | .error _ => .error .parseError
  | .ok smf =>
    match smf.timing with
    | .timecode => .error .timingUnsupported
    | .metrical tpq => .ok (parseCore tpq smf.tracks)

/-- The concrete two-track scenario of the end-to-end claim: track 1
strikes pitch 60 at tick 0, track 2 strikes pitch 64 at tick 0, and
each note is released (note-on with velocity 0) two sixteenth-note
steps later, at tick 240 with `tpq = 480` (`ticksPer16th = 120`). -/
def c3Track1 : List TrackEvent := [⟨0, .noteOn 60 64⟩, ⟨240, .noteOn 60 0⟩]

/-- Second track of the end-to-end scenario; see `c3Track1`. -/
def c3Track2 : List TrackEvent := [⟨0, .noteOn 64 64⟩, ⟨240, .noteOn 64 0⟩]

/-- A concrete animation state used to instantiate the engine
theorems. -/
def c9State : AnimationState :=
  { motions := []
    current_position := ⟨0, 0, 0⟩
    target_position := ⟨0, 0, 0⟩
    current_index := 0
    transition_progress := 1 / 2
    current_hue := 9 / 10
    target_hue := 1 / 10
    position_history := []
    timer := 0 }

end ChordViz

namespace ChordViz

/-- C1 counterexample: on the empty frame sequence (N = 0) `convert`
does not return the empty sequence — the `usize` subtraction
`len() - 1` underflows and the call panics, modelled as `none`. -/
theorem convert_nil_panics : convert ([] : List V4) = none := rfl

/-- C1 (amended): for every nonempty frame sequence of length N,
`convert` returns a motion-vector sequence of length N − 1 (hence the
empty sequence when N = 1); the N = 0 case panics instead of returning
an empty sequence. -/
theorem convert_length_of_ne_nil (vl : List V4) (h : vl ≠ []) :
    ∃ out, convert vl = some out ∧ out.length = vl.length - 1 := by
  refine ⟨(List.range (vl.length - 1)).map fun i =>
    transform (vl.getD i z4) (vl.getD (i + 1) z4), ?_, ?_⟩
  · simp [convert, List.length_eq_zero.not.mpr h]
  · simp

/-- Closed instance of `convert_length_of_ne_nil` at a concrete
one-frame input. -/
theorem convert_length_of_ne_nil_witness :
    ∃ out, convert [z4] = some out ∧ out.length = [z4].length - 1 :=
  convert_length_of_ne_nil [z4] (by simp)

/-- With step `tp16 = 0` the sampling loop never advances `tick`, so
as long as `tick ≤ maxTick` no amount of fuel can make it finish. -/
theorem sampleFuel_none_of_tp16_zero (maxTick : ℕ) (notes : List (ℕ × ℤ)) :
    ∀ (fuel tick : ℕ) (lastNote : ℤ) (acc : List ℤ), tick ≤ maxTick →
      sampleFuel 0 maxTick notes fuel tick lastNote acc = none := by
  intro fuel
  induction fuel with
  | zero => intro tick lastNote acc h; simp [sampleFuel, h]
  | succ n ih =>
    intro tick lastNote acc h
    simp only [sampleFuel, if_pos h]
    exact ih tick _ _ h

/-- With a positive step the sampling loop finishes once the remaining
fuel covers the distance from `tick` to `maxTick`. -/
theorem sampleFuel_isSome_of_pos (tp16 maxTick : ℕ) (notes : List (ℕ × ℤ))
    (htp : 1 ≤ tp16) :
    ∀ (fuel tick : ℕ) (lastNote : ℤ) (acc : List ℤ),
      maxTick + 1 ≤ tick + fuel →
      (sampleFuel tp16 maxTick notes fuel tick lastNote acc).isSome := by
  intro fuel
  induction fuel with
  | zero =>
    intro tick lastNote acc h
    have : ¬ tick ≤ maxTick := by omega
    simp [sampleFuel, this]
  | succ n ih =>
    intro tick lastNote acc h
    by_cases htick : tick ≤ maxTick
    · simp only [sampleFuel, if_pos htick]
      exact ih (tick + tp16) _ _ (by omega)
    · simp [sampleFuel, htick]

/-- For `tp16 ≥ 1` the fuel `lastTick + 1` used by `voiceTimeline` is
always enough, so `voiceTimeline` is `some` exactly when the Rust
sampling loop terminates. -/
theorem voiceTimeline_isSome_of_pos (tp16 : ℕ) (track : List TrackEvent)
    (htp : 1 ≤ tp16) : (voiceTimeline tp16 track).isSome :=
  sampleFuel_isSome_of_pos tp16 _ _ htp _ 0 0 [] (by omega)

/-- Closed instance of `voiceTimeline_isSome_of_pos` at a concrete
track. -/
theorem voiceTimeline_isSome_of_pos_witness :
    (voiceTimeline 1 [⟨3, .noteOn 60 64⟩]).isSome :=
  voiceTimeline_isSome_of_pos 1 [⟨3, .noteOn 60 64⟩] (by decide)

/-- C2: the extraction sampling loop does not terminate for every
declared ticks-per-quarter-note value.  With `tpq = 2` the step is
`ticksPer16th = 2 / 4 = 0`, and already for a single track with no
events the loop `while tick <= max_tick` runs forever: the pipeline
result is the divergence marker `none`, and no fuel bound makes the
per-voice sampling finish. -/
theorem extraction_diverges_on_tpq_two :
    parseCore 2 [[]] = none ∧
      ∀ fuel : ℕ, voiceTimelineFuel (2 / 4) [] fuel = none := by
  constructor
  · rfl
  · intro fuel
    exact sampleFuel_none_of_tp16_zero 0 [] fuel 0 0 [] (by omega)

/-- C3 counterexample: the two-track scenario does not produce the
two-frame sequence `[[60,64,0,0],[60,64,0,0]]` — only note-on ticks
bound the sampling grid, so holding a note does not extend it, the
last recorded tick is 0, and extraction stops after a single frame. -/
theorem scenario_not_two_frames :
    parseCore 480 [c3Track1, c3Track2] ≠
      some [⟨60, 64, 0, 0⟩, ⟨60, 64, 0, 0⟩] := by decide

/-- C3 (amended): the two-track scenario (notes struck at tick 0 and
held for two sixteenth-note steps, tracks 3–4 absent) yields the
single-frame sequence `[[60,64,0,0]]`, and the transformer applied to
it yields the empty MotionVector sequence — no adjacent pair exists,
so no delta `[0,0,0,0]` is ever formed. -/
theorem scenario_single_frame_no_motion :
    parseCore 480 [c3Track1, c3Track2] = some [⟨60, 64, 0, 0⟩] ∧
      convert [⟨60, 64, 0, 0⟩] = some [] := by decide

/-- If the samples strictly before index `k` are all zero and the
sample at `k` is the non-zero value `v`, then `v` is the first
non-zero sample `find?` returns. -/
theorem find?_first_nonzero (tl : List ℤ) (k : ℕ) (v : ℤ) (hv : v ≠ 0)
    (hk : k < tl.length) (hzero : ∀ i, i < k → tl.getD i 0 = 0)
    (hkv : tl.getD k 0 = v) :
    tl.find? (fun x => x != 0) = some v := by
  induction tl generalizing k with
  | nil => simp at hk
  | cons x xs ih =>
    cases k with
    | zero =>
      have hx : x = v := by simpa using hkv
      subst hx
      simp [List.find?_cons, bne_iff_ne, hv]
    | succ k =>
      have hx : x = 0 := by simpa using hzero 0 (Nat.succ_pos k)
      subst hx
      rw [List.find?_cons_of_neg _ (by simp)]
      exact ih k (by simpa using hk)
        (fun i hi => by simpa using hzero (i + 1) (by omega))
        (by simpa using hkv)

/-- The backfill loop rewrites exactly the leading zeros: if the
samples strictly before `k` are zero and the sample at `k` is
non-zero, the result is `k` copies of `v` followed by the untouched
tail from index `k` on. -/
theorem backfillAux_first_nonzero (v : ℤ) (tl : List ℤ) (k : ℕ)
    (hk : k < tl.length) (hzero : ∀ i, i < k → tl.getD i 0 = 0)
    (hkv : tl.getD k 0 ≠ 0) :
    backfillAux v tl = List.replicate k v ++ tl.drop k := by
  induction tl generalizing k with
  | nil => simp at hk
  | cons x xs ih =>
    cases k with
    | zero =>
      have hx : x ≠ 0 := by simpa using hkv
      simp [backfillAux, hx]
    | succ k =>
      have hx : x = 0 := by simpa using hzero 0 (Nat.succ_pos k)
      subst hx
      rw [show backfillAux v (0 :: xs) = v :: backfillAux v xs from by
        simp [backfillAux]]
      rw [List.replicate_succ, List.drop_succ_cons, List.cons_append]
      refine congrArg (v :: ·) ?_
      exact ih k (by simpa using hk)
        (fun i hi => by simpa using hzero (i + 1) (by omega))
        (by simpa using hkv)

/-- C5: for a voice timeline whose first non-zero sample is `v` at
index `k`, silence backfill sets every index in `[0,k)` to `v` and
leaves index `k` and every later index unchanged (the result is
`replicate k v ++ drop k tl`); a timeline with no non-zero sample is
unchanged. -/
theorem backfill_first_nonzero :
    (∀ (tl : List ℤ) (k : ℕ) (v : ℤ), v ≠ 0 → k < tl.length →
      (∀ i, i < k → tl.getD i 0 = 0) → tl.getD k 0 = v →
      backfill tl = List.replicate k v ++ tl.drop k) ∧
    (∀ tl : List ℤ, (∀ x ∈ tl, x = 0) → backfill tl = tl) := by
  constructor
  · intro tl k v hv hk hzero hkv
    rw [backfill, find?_first_nonzero tl k v hv hk hzero hkv]
    exact backfillAux_first_nonzero v tl k hk hzero (hkv ▸ hv)
  · intro tl hall
    rw [backfill]
    have : tl.find? (fun x => x != 0) = none := by
      rw [List.find?_eq_none]
      intro x hx
      simp [hall x hx]
    rw [this]

/-- Closed instance of `backfill_first_nonzero` at concrete timelines:
first non-zero value 5 at index 2, and an all-zero timeline. -/
theorem backfill_first_nonzero_witness :
    backfill [0, 0, 5, 0] = List.replicate 2 5 ++ List.drop 2 [0, 0, 5, 0] ∧
      backfill [0, 0] = [0, 0] :=
  ⟨backfill_first_nonzero.1 [0, 0, 5, 0] 2 5 (by decide) (by decide)
      (by decide) (by decide),
    backfill_first_nonzero.2 [0, 0] (by decide)⟩

/-- C7: in every single advance call, for any elapsed time (however
large), the keyframe index either stays the same or increases by
exactly 1 — it never decreases and never skips, because at most one
boundary is processed per call. -/
theorem advance_index_monotone_step (s : AnimationState) (dt : ℚ)
    (hdt : 0 ≤ dt) :
    ∃ s2 r, s.update dt = some (s2, r) ∧
      (s2.current_index = s.current_index ∨
        s2.current_index = s.current_index + 1) := by
  simp only [AnimationState.update]
  by_cases h1 : (1 : ℚ) ≤ s.transition_progress + dt / MOTION_SPEED
  · simp only [if_pos h1]
    by_cases h2 : s.motions.length ≤ s.current_index + 1
    · simp only [if_pos h2]
      exact ⟨_, _, rfl, Or.inr rfl⟩
    · simp only [if_neg h2]
      have hlt : s.current_index + 1 < s.motions.length := by omega
      rw [List.getElem?_eq_getElem hlt]
      exact ⟨_, _, rfl, Or.inr rfl⟩
  · simp only [if_neg h1]
    exact ⟨_, _, rfl, Or.inl rfl⟩

/-- Closed instance of `advance_index_monotone_step` at a concrete
state and `dt = 0`. -/
theorem advance_index_monotone_step_witness :
    ∃ s2 r, c9State.update 0 = some (s2, r) ∧
      (s2.current_index = c9State.current_index ∨
        s2.current_index = c9State.current_index + 1) :=
  advance_index_monotone_step c9State 0 (by norm_num)

/-- C8: after an advance call on a state whose history held at most
100 entries, the position-history buffer still holds at most 100
entries, and when the append would exceed 100 (the buffer held
exactly 100 and a boundary is crossed) the oldest, first-appended
entry — the list head — is the one evicted. -/
theorem advance_history_bounded (s : AnimationState) (dt : ℚ)
    (h : s.position_history.length ≤ 100) :
    ∃ s2 r, s.update dt = some (s2, r) ∧ s2.position_history.length ≤ 100 ∧
      (1 ≤ s.transition_progress + dt / MOTION_SPEED →
        s.position_history.length = 100 →
        s2.position_history = s.position_history.drop 1 ++ [s.target_position]) := by
  simp only [AnimationState.update]
  by_cases h1 : (1 : ℚ) ≤ s.transition_progress + dt / MOTION_SPEED
  · simp only [if_pos h1]
    have hlen : (s.position_history ++ [s.target_position]).length =
        s.position_history.length + 1 := by simp
    by_cases hev : 100 < (s.position_history ++ [s.target_position]).length
    · have hdropEq : (s.position_history ++ [s.target_position]).drop 1 =
          s.position_history.drop 1 ++ [s.target_position] :=
        List.drop_append_of_le_length (by omega)
      simp only [if_pos hev]
      by_cases h2 : s.motions.length ≤ s.current_index + 1
      · simp only [if_pos h2]
        refine ⟨_, _, rfl, ?_, ?_⟩
        · simpa [hdropEq] using by omega
        · intro _ _; exact hdropEq
      · simp only [if_neg h2]
        have hlt : s.current_index + 1 < s.motions.length := by omega
        rw [List.getElem?_eq_getElem hlt]
        refine ⟨_, _, rfl, ?_, ?_⟩
        · simpa [hdropEq] using by omega
        · intro _ _; exact hdropEq
    · simp only [if_neg hev]
      by_cases h2 : s.motions.length ≤ s.current_index + 1
      · simp only [if_pos h2]
        refine ⟨_, _, rfl, ?_, ?_⟩
        · simpa using by omega
        · intro _ hc; omega
      · simp only [if_neg h2]
        have hlt : s.current_index + 1 < s.motions.length := by omega
        rw [List.getElem?_eq_getElem hlt]
        refine ⟨_, _, rfl, ?_, ?_⟩
        · simpa using by omega
        · intro _ hc; omega
  · simp only [if_neg h1]
    exact ⟨_, _, rfl, h, fun hc _ => absurd hc h1⟩

/-- Closed instance of `advance_history_bounded` at a concrete state
and `dt = 1`. -/
theorem advance_history_bounded_witness :
    ∃ s2 r, c9State.update 1 = some (s2, r) ∧
      s2.position_history.length ≤ 100 ∧
      (1 ≤ c9State.transition_progress + 1 / MOTION_SPEED →
        c9State.position_history.length = 100 →
        s2.position_history =
          c9State.position_history.drop 1 ++ [c9State.target_position]) :=
  advance_history_bounded c9State 1 (by decide)

/-- C9: the interpolated-color query interpolates hue along the
shorter arc of the circular hue domain: with current hue 0.9, target
hue 0.1 and progress 0.5 the interpolated hue is 0 (wrapping through
0), not 0.5. -/
theorem interpolated_hue_shorter_arc :
    c9State.interpolatedHue = 0 ∧ c9State.interpolatedHue ≠ 1 / 2 := by
  constructor <;>
    norm_num [AnimationState.interpolatedHue, c9State, rfract, ratTrunc,
      abs_of_nonpos, abs_of_nonneg]

/-- C10: calling advance on a state whose keyframe index is at or
past the vector count (the situation after "stop" was returned) never
reads the motion-vector sequence out of bounds: the completion check
runs before any element access, so the call completes. -/
theorem advance_after_stop_safe (s : AnimationState) (dt : ℚ)
    (h : s.motions.length ≤ s.current_index) :
    ∃ s2 r, s.update dt = some (s2, r) := by
  simp only [AnimationState.update]
  by_cases h1 : (1 : ℚ) ≤ s.transition_progress + dt / MOTION_SPEED
  · simp only [if_pos h1,
      if_pos (show s.motions.length ≤ s.current_index + 1 by omega)]
    exact ⟨_, _, rfl⟩
  · simp only [if_neg h1]
    exact ⟨_, _, rfl⟩

/-- Closed instance of `advance_after_stop_safe` at a concrete state
(empty motion list, index 0) and `dt = 1`. -/
theorem advance_after_stop_safe_witness :
    ∃ s2 r, c9State.update 1 = some (s2, r) :=
  advance_after_stop_safe c9State 1 (by decide)

/-- C6: a malformed byte stream makes `parse` fail with `ParseError`,
a timing base other than ticks-per-quarter-note makes it fail with
`TimingUnsupported`, and in both cases the result is an error value
carrying no partial frame sequence. -/
theorem parse_error_paths :
    (∀ e : Unit, parse (.error e) = .error .parseError) ∧
      ∀ tracks, parse (.ok ⟨.timecode, tracks⟩) = .error .timingUnsupported :=
  ⟨fun _ => rfl, fun _ => rfl⟩

/-- C4: component 0 of each motion vector produced by `convert` is the
sum of the four per-voice pitch deltas of its adjacent frame pair. -/
theorem motion_row0_is_delta_sum (vl out : List V4)
    (h : convert vl = some out) (i : ℕ) (hi : i + 1 < vl.length) :
    (out.getD i z4).c0 =
      ((vl.getD (i + 1) z4).c0 - (vl.getD i z4).c0) +
      ((vl.getD (i + 1) z4).c1 - (vl.getD i z4).c1) +
      ((vl.getD (i + 1) z4).c2 - (vl.getD i z4).c2) +
      ((vl.getD (i + 1) z4).c3 - (vl.getD i z4).c3) := by
  have hne : vl.length ≠ 0 := by omega
  have hout : out = (List.range (vl.length - 1)).map fun i =>
      transform (vl.getD i z4) (vl.getD (i + 1) z4) := by
    simpa [convert, hne] using h.symm
  subst hout
  have hilt : i < vl.length - 1 := by omega
  rw [List.getD_eq_getElem?_getD, List.getElem?_map, List.getElem?_range hilt]
  simp only [Option.map_some', Option.getD_some]
  simp [transform, matmul4x4, matdif4x1, tMatrix]

/-- Closed instance of `motion_row0_is_delta_sum` at a concrete frame
pair. -/
theorem motion_row0_is_delta_sum_witness :
    (([transform (V4.mk 1 2 3 4) (V4.mk 5 7 9 11)].getD 0 z4).c0 =
      (([V4.mk 1 2 3 4, V4.mk 5 7 9 11].getD 1 z4).c0 -
        ([V4.mk 1 2 3 4, V4.mk 5 7 9 11].getD 0 z4).c0) +
      (([V4.mk 1 2 3 4, V4.mk 5 7 9 11].getD 1 z4).c1 -
        ([V4.mk 1 2 3 4, V4.mk 5 7 9 11].getD 0 z4).c1) +
      (([V4.mk 1 2 3 4, V4.mk 5 7 9 11].getD 1 z4).c2 -
        ([V4.mk 1 2 3 4, V4.mk 5 7 9 11].getD 0 z4).c2) +
      (([V4.mk 1 2 3 4, V4.mk 5 7 9 11].getD 1 z4).c3 -
        ([V4.mk 1 2 3 4, V4.mk 5 7 9 11].getD 0 z4).c3)) := by
  have h := motion_row0_is_delta_sum [V4.mk 1 2 3 4, V4.mk 5 7 9 11]
    [transform (V4.mk 1 2 3 4) (V4.mk 5 7 9 11)] (by decide) 0 (by decide)
  simpa using h

end ChordViz
